import Mathlib

/-!
Verification of the linmath.hpp numeric kernel (namespace `lm` of the
repository, files linmath/vec.hpp, linmath/mat.hpp, linmath/quat.hpp,
linmath/libc_integration.hpp, linmath/detail/simd_integration.hpp).

The repository computes exclusively in IEEE-754 binary32 ("float").  The
embedding below therefore models floats as 32-bit patterns (`F32`) and
implements the IEEE-754 binary32 operations (negation, addition,
subtraction, multiplication, division, the comparisons) exactly, with
round-to-nearest, ties-to-even.  Every value a float can take is a dyadic
rational, so all arithmetic is done with integer mantissas and exponents;
rounding of a quotient n/d * 2^E is done by integer division with an
explicit ties-to-even rule.  NaN results are collapsed to the canonical
quiet NaN pattern 0x7fc00000; no claim below depends on NaN payloads.

On top of the float model, the library's own functions are translated
one-to-one from the C++ source: the freestanding sinf/cosf/tanf/sqrtf
(including the bit-level fast-inverse-square-root trick and the while-loop
range reduction, which is modelled with explicit fuel because the C loop
does not terminate for every input), the generic vector/matrix/quaternion
kernels, and the SSE2/NEON specializations of the 4-wide dot product and
the 4x4 multiply (translated instruction by instruction from the
intrinsics; NEON vmlaq is modelled as an unfused multiply-add, which is
what the ACLE intrinsic specifies for VMLA).
-/

set_option maxRecDepth 4000

/-- Bit patterns of IEEE-754 binary32 values: the naturals below 2^32. -/
abbrev F32 := Fin 4294967296

namespace F32

/-- Wrap a natural number to a 32-bit pattern (unsigned wrap-around). -/
def enc (n : Nat) : F32 := ⟨n % 4294967296, Nat.mod_lt _ (by norm_num)⟩

/-- Sign bit of a pattern. -/
def sign (x : F32) : Bool := decide (2147483648 ≤ x.val)

/-- Biased exponent field (8 bits). -/
def expF (x : F32) : Nat := x.val / 8388608 % 256

/-- Fraction field (23 bits). -/
def frac (x : F32) : Nat := x.val % 8388608

/-- NaN classification: exponent field all ones, nonzero fraction. -/
def isNaN (x : F32) : Bool := decide (expF x = 255 ∧ frac x ≠ 0)

/-- Infinity classification: exponent field all ones, zero fraction. -/
def isInf (x : F32) : Bool := decide (expF x = 255 ∧ frac x = 0)

/-- Zero classification (both signed zeros). -/
def isZero (x : F32) : Bool := decide (expF x = 0 ∧ frac x = 0)

/-- Finite (neither NaN nor infinity). -/
def isFinite (x : F32) : Bool := decide (expF x ≠ 255)

/-- Assemble a pattern from sign, biased exponent and fraction. -/
def mkF (s : Bool) (e f : Nat) : F32 := enc ((cond s 1 0) * 2147483648 + e * 8388608 + f)

/-- Signed zero. -/
def zeroF (s : Bool) : F32 := mkF s 0 0

/-- Signed infinity. -/
def infF (s : Bool) : F32 := mkF s 255 0

/-- Positive zero, the pattern 0x00000000. -/
def pz : F32 := zeroF false

/-- Canonical quiet NaN, the pattern 0x7fc00000. -/
def qNaN : F32 := enc 2143289344

/-- Negation: flip the sign bit.  IEEE negation is a pure bit operation. -/
def fneg (x : F32) : F32 :=
if h : 2147483648 ≤ x.val then ⟨x.val - 2147483648, by omega⟩
else ⟨x.val + 2147483648, by have := x.isLt; omega⟩

/-- Unsigned significand: the fraction with the hidden bit added for
normal numbers.  The value of a finite x is `(-1)^sign * fman x * 2^(fexp x)`. -/
def fman (x : F32) : Nat := if expF x = 0 then frac x else 8388608 + frac x

/-- Exponent of the significand, so that finite values are fman * 2^fexp. -/
def fexp (x : F32) : Int := if expF x = 0 then -149 else (expF x : Int) - 150

/-- Signed significand. -/
def fmanS (x : F32) : Int := if sign x then -(fman x : Int) else (fman x : Int)

/-- Bit length, computed with explicit structural fuel (the fuel 512 is
far beyond every mantissa ever produced below: they stay under 2^300). -/
def blen : Nat → Nat → Nat
| 0, _ => 0
| f + 1, n => if n = 0 then 0 else blen f (n / 2) + 1

/-- Bit length of a natural number: 0 for 0, otherwise the position of the
leading one plus one, so 2^(bitlen n - 1) <= n < 2^(bitlen n). -/
def bitlen (n : Nat) : Nat := blen 512 n

/-- Round n/d to the nearest integer, ties to even (d positive). -/
def rneNat (n d : Nat) : Nat :=
let q := n / d
let r := n % d
if 2 * r < d then q else if d < 2 * r then q + 1 else if q % 2 = 0 then q else q + 1

/-- Round (n/d) * 2^k to the nearest integer, ties to even. -/
def rneSh (n d : Nat) (k : Int) : Nat :=
if 0 ≤ k then rneNat (n * 2 ^ k.toNat) d else rneNat n (d * 2 ^ (-k).toNat)

/-- Round the positive rational (n/d) * 2^E (n, d >= 1) to binary32 with
round-to-nearest ties-to-even and attach the sign s: overflow gives the
signed infinity, tiny values round into the subnormal range or to signed
zero.  The floor exponent is located from the bit lengths of n and d plus
one exact comparison; the significand is then one integer rounding. -/
def roundRat (s : Bool) (n d : Nat) (E : Int) : F32 :=
let G : Int := (bitlen n : Int) - (bitlen d : Int) + E
let Efl : Int := if d * 2 ^ (bitlen n - bitlen d) ≤ n * 2 ^ (bitlen d - bitlen n) then G else G - 1
if Efl < -126 then
  let m := rneSh n d (E + 149)
  if m = 0 then zeroF s
  else if 8388608 ≤ m then mkF s 1 0
  else mkF s 0 m
else
  let m := rneSh n d (E + 23 - Efl)
  if 16777216 ≤ m then
    (if 127 < Efl + 1 then infF s else mkF s (Efl + 128).toNat 0)
  else if 127 < Efl then infF s
  else mkF s (Efl + 127).toNat (m - 8388608)

/-- IEEE binary32 addition, round to nearest, ties to even.  An exactly
zero sum of nonzero operands is +0; the sum of two zeros is -0 only when
both operands are -0. -/
def fadd (a b : F32) : F32 :=
if isNaN a || isNaN b then qNaN
else if isInf a then (if isInf b && (sign a != sign b) then qNaN else a)
else if isInf b then b
else
  let n : Int := fmanS a * 2 ^ (fexp a - fexp b).toNat + fmanS b * 2 ^ (fexp b - fexp a).toNat
  if n = 0 then (if isZero a && isZero b then zeroF (sign a && sign b) else pz)
  else roundRat (decide (n < 0)) n.natAbs 1 (min (fexp a) (fexp b))

/-- IEEE subtraction: a - b = a + (-b), exactly, in every case. -/
def fsub (a b : F32) : F32 := fadd a (fneg b)

/-- IEEE binary32 multiplication, round to nearest, ties to even. -/
def fmul (a b : F32) : F32 :=
let s := sign a != sign b
if isNaN a || isNaN b then qNaN
else if isInf a || isInf b then (if isZero a || isZero b then qNaN else infF s)
else if fman a * fman b = 0 then zeroF s
else roundRat s (fman a * fman b) 1 (fexp a + fexp b)

/-- IEEE binary32 division, round to nearest, ties to even. -/
def fdiv (a b : F32) : F32 :=
let s := sign a != sign b
if isNaN a || isNaN b then qNaN
else if isInf a then (if isInf b then qNaN else infF s)
else if isInf b then zeroF s
else if isZero b then (if isZero a then qNaN else infF s)
else if isZero a then zeroF s
else roundRat s (fman a) (fman b) (fexp a - fexp b)

/-- IEEE comparison a < b (false whenever an operand is NaN; the two
zeros compare equal). -/
def flt (a b : F32) : Bool :=
if isNaN a || isNaN b then false
else if isInf a then sign a && !(isInf b && sign b)
else if isInf b then !(sign b)
else decide (fmanS a * 2 ^ (fexp a - fexp b).toNat < fmanS b * 2 ^ (fexp b - fexp a).toNat)

/-- IEEE comparison a <= b (false whenever an operand is NaN). -/
def fle (a b : F32) : Bool := if isNaN a || isNaN b then false else !(flt b a)

/-- IEEE comparison a > b. -/
def fgt (a b : F32) : Bool := flt b a

/-- IEEE comparison a >= b. -/
def fge (a b : F32) : Bool := fle b a

/-- IEEE equality (false on NaN, true on +0 = -0). -/
def feq (a b : F32) : Bool :=
if isNaN a || isNaN b then false
else if isInf a || isInf b then decide (a = b)
else decide (fmanS a * 2 ^ (fexp a - fexp b).toNat = fmanS b * 2 ^ (fexp b - fexp a).toNat)

/-- The float value of the decimal fraction n/d, rounded to nearest even:
the value a C float literal denotes. -/
def flit (n d : Nat) : F32 := if n = 0 then pz else roundRat false n d 0

/-- Exact value of a finite float, scaled by 2^149 (an integer, since
every finite binary32 value is a multiple of 2^-149). -/
def val149 (x : F32) : Int := fmanS x * 2 ^ (fexp x + 149).toNat

/-- The exact value of the finite float x lies within 1/d of the integer
t, expressed over the 2^149 grid: d * |value - t| <= 1. -/
def near (x : F32) (t : Int) (d : Nat) : Prop :=
((d : Int) * (val149 x - t * 2 ^ 149)).natAbs ≤ 2 ^ 149

instance (x : F32) (t : Int) (d : Nat) : Decidable (near x t d) := by
unfold near; infer_instance

/-- Nonnegative-or-NaN-free class used in the quaternion proofs: the
pattern is not a NaN and, unless it is a (possibly signed) zero, its sign
bit is clear.  Partial sums of squares stay in this class. -/
def NonnegF (x : F32) : Prop := isNaN x = false ∧ (isZero x = false → sign x = false)

end F32

namespace lm

/-- Float constant 1.0f. -/
def f1 : F32 := F32.flit 1 1

/-- The repository's PI constant, the float literal 3.14159265359f. -/
def PI : F32 := F32.flit 314159265359 100000000000

/-- The repository's PI_HALF constant, the float literal 1.57079632679f. -/
def PI_HALF : F32 := F32.flit 157079632679 100000000000

/-- The repository's PI_DOUBLE constant, the float literal 6.28318530718f. -/
def PI_DOUBLE : F32 := F32.flit 628318530718 100000000000

/-- lm::sqrtf from libc_integration.hpp: inputs <= 0 (IEEE comparison,
so not NaN inputs) return 0.0f; otherwise the fast-inverse-square-root
bit trick u.i = 0x5f3759df - (u.i >> 1) followed by one Newton-Raphson
iteration y = y * (1.5f - x_half * y * y), returning X * y. -/
def sqrtf (X : F32) : F32 :=
if F32.fle X F32.pz then F32.pz
else
  let xh := F32.fmul (F32.flit 1 2) X
  let y0 : F32 := F32.enc (1597463007 + 4294967296 - X.val / 2)
  let y1 := F32.fmul y0 (F32.fsub (F32.flit 3 2) (F32.fmul (F32.fmul xh y0) y0))
  F32.fmul X y1

/-- The first range-reduction loop of lm::sinf, "while (X >= PI_DOUBLE)
X -= PI_DOUBLE", run with explicit fuel; none means the loop condition
still held when the fuel ran out (the C loop does not terminate). -/
def redDown : Nat → F32 → Option F32
| 0, X => if F32.fge X PI_DOUBLE then Option.none else some X
| fuel + 1, X => if F32.fge X PI_DOUBLE then redDown fuel (F32.fsub X PI_DOUBLE) else some X

/-- The second range-reduction loop of lm::sinf, "while (X < 0.f)
X += PI_DOUBLE", run with explicit fuel. -/
def redUp : Nat → F32 → Option F32
| 0, X => if F32.flt X F32.pz then Option.none else some X
| fuel + 1, X => if F32.flt X F32.pz then redUp fuel (F32.fadd X PI_DOUBLE) else some X

/-- lm::sinf from libc_integration.hpp, with explicit fuel for the two
range-reduction while-loops.  Note the source computes x2 = X*X from the
unreduced argument, before the loops run; the polynomial is
X * (1.f - x2/6.f + (x2*x2)/120.0f), negated when X was folded out of
the upper half-turn. -/
def sinfFuel (fuel : Nat) (X : F32) : Option F32 :=
let x2 := F32.fmul X X
match redDown fuel X with
| Option.none => Option.none
| some X1 =>
  match redUp fuel X1 with
  | Option.none => Option.none
  | some X2 =>
    let flip := F32.fgt X2 PI
    let X3 := if flip then F32.fsub X2 PI else X2
    let X4 := if F32.fgt X3 PI_HALF then F32.fsub PI X3 else X3
    let res := F32.fmul X4 (F32.fadd (F32.fsub f1 (F32.fdiv x2 (F32.flit 6 1)))
                                     (F32.fdiv (F32.fmul x2 x2) (F32.flit 120 1)))
    some (if flip then F32.fneg res else res)

/-- lm::sinf as a total function: the fueled loop with fuel 1000, which
never runs out on the concrete arguments used in the theorems below
(their magnitudes are under 2*pi, so the loops run zero iterations). -/
def sinf (X : F32) : F32 := (sinfFuel 1000 X).getD F32.qNaN

/-- lm::cosf: sinf(X + PI_HALF). -/
def cosf (X : F32) : F32 := sinf (F32.fadd X PI_HALF)

/-- The first range-reduction loop of lm::tanf, "while (X > PI)
X -= PI_DOUBLE", run with explicit fuel. -/
def tanRedDown : Nat → F32 → Option F32
| 0, X => if F32.fgt X PI then Option.none else some X
| fuel + 1, X => if F32.fgt X PI then tanRedDown fuel (F32.fsub X PI_DOUBLE) else some X

/-- The second range-reduction loop of lm::tanf, "while (X < -PI)
X += PI_DOUBLE", run with explicit fuel. -/
def tanRedUp : Nat → F32 → Option F32
| 0, X => if F32.flt X (F32.fneg PI) then Option.none else some X
| fuel + 1, X => if F32.flt X (F32.fneg PI) then tanRedUp fuel (F32.fadd X PI_DOUBLE) else some X

/-- lm::tanf from libc_integration.hpp with explicit loop fuel: x2 = X*X
taken before reduction, then the odd polynomial
X + X*x2*(1/3 + x2*(2/15 + x2*(17/315))). -/
def tanfFuel (fuel : Nat) (X : F32) : Option F32 :=
let x2 := F32.fmul X X
match tanRedDown fuel X with
| Option.none => Option.none
| some X1 =>
  match tanRedUp fuel X1 with
  | Option.none => Option.none
  | some X2 =>
    let c3 := F32.fdiv f1 (F32.flit 3 1)
    let c15 := F32.fdiv (F32.flit 2 1) (F32.flit 15 1)
    let c315 := F32.fdiv (F32.flit 17 1) (F32.flit 315 1)
    some (F32.fadd X2 (F32.fmul (F32.fmul X2 x2)
           (F32.fadd c3 (F32.fmul x2 (F32.fadd c15 (F32.fmul x2 c315))))))

/-- Component access V[i] on a vector modelled as a list, with junk
default +0 (never reached at the fixed sizes used). -/
def vIdx (V : List F32) (i : Nat) : F32 := V.getD i F32.pz

/-- vec_add: componentwise float addition (res[i] = A[i] + B[i]). -/
def vec_add (A B : List F32) : List F32 := List.zipWith F32.fadd A B

/-- vec_sub: componentwise float subtraction. -/
def vec_sub (A B : List F32) : List F32 := List.zipWith F32.fsub A B

/-- vec_scale: componentwise multiplication by the scalar on the right
(res[i] = V[i] * S). -/
def vec_scale (V : List F32) (S : F32) : List F32 := V.map (fun x => F32.fmul x S)

/-- Componentwise negation, the library's unary operator minus. -/
def vec_neg (V : List F32) : List F32 := V.map F32.fneg

/-- vec_dot: res starts at value-initialized zero and accumulates
res += A[i] * B[i] in ascending index order. -/
def vec_dot (A B : List F32) : F32 := (List.zipWith F32.fmul A B).foldl F32.fadd F32.pz

/-- vec_len: sqrtf of the self dot product. -/
def vec_len (V : List F32) : F32 := sqrtf (vec_dot V V)

/-- vec_norm: the all-zero vector when the length compares equal to zero,
otherwise the vector scaled by 1/length. -/
def vec_norm (V : List F32) : List F32 :=
if F32.feq (vec_len V) F32.pz then List.replicate V.length F32.pz
else vec_scale V (F32.fdiv f1 (vec_len V))

/-- vec3_cross, the right-handed formula from vec.hpp. -/
def vec3_cross (A B : List F32) : List F32 :=
[F32.fsub (F32.fmul (vIdx A 1) (vIdx B 2)) (F32.fmul (vIdx A 2) (vIdx B 1)),
 F32.fsub (F32.fmul (vIdx A 2) (vIdx B 0)) (F32.fmul (vIdx A 0) (vIdx B 2)),
 F32.fsub (F32.fmul (vIdx A 0) (vIdx B 1)) (F32.fmul (vIdx A 1) (vIdx B 0))]

/-- detail::dot_sse2: multiply lanes, then the SSE2-safe horizontal add,
whose sum order is (m0 + m1) + (m2 + m3). -/
def dot_sse2 (A B : List F32) : F32 :=
F32.fadd (F32.fadd (F32.fmul (vIdx A 0) (vIdx B 0)) (F32.fmul (vIdx A 1) (vIdx B 1)))
         (F32.fadd (F32.fmul (vIdx A 2) (vIdx B 2)) (F32.fmul (vIdx A 3) (vIdx B 3)))

/-- detail::dot_neon: multiply lanes, add low and high halves pairwise,
then the two lanes, so the sum order is (m0 + m2) + (m1 + m3). -/
def dot_neon (A B : List F32) : F32 :=
F32.fadd (F32.fadd (F32.fmul (vIdx A 0) (vIdx B 0)) (F32.fmul (vIdx A 2) (vIdx B 2)))
         (F32.fadd (F32.fmul (vIdx A 1) (vIdx B 1)) (F32.fmul (vIdx A 3) (vIdx B 3)))

end lm

/-- The simd::level enumeration from detail/simd_integration.hpp. -/
inductive SimdLevel where
| none
| sse2
| avx
| avx2
| neon
deriving DecidableEq

namespace lm

/-- vec4_dot from vec.hpp: the switch on simd::max_level().  The NEON
case exists on ARM builds, the SSE2/AVX/AVX2 cases on x86 builds; every
remaining level falls through to the generic scalar vec_dot. -/
def vec4_dot (lvl : SimdLevel) (A B : List F32) : F32 :=
match lvl with
| SimdLevel.neon => dot_neon A B
| SimdLevel.sse2 => dot_sse2 A B
| SimdLevel.avx => dot_sse2 A B
| SimdLevel.avx2 => dot_sse2 A B
| SimdLevel.none => vec_dot A B

/-- Matrix entry M[c][r] of a column-major 4x4 matrix modelled as the
list of its four columns. -/
def mIdx (M : List (List F32)) (c r : Nat) : F32 := vIdx (M.getD c []) r

/-- mat_identity with N = 4: ones on the diagonal (T(i==j)). -/
def mat_identity4 : List (List F32) :=
[[f1, F32.pz, F32.pz, F32.pz],
 [F32.pz, f1, F32.pz, F32.pz],
 [F32.pz, F32.pz, f1, F32.pz],
 [F32.pz, F32.pz, F32.pz, f1]]

/-- The generic scalar mat_mul at N = 4: R[c][r] accumulates
sum += A[k][r] * B[c][k] over ascending k from a value-initialized zero. -/
def mat_mul_scalar (A B : List (List F32)) : List (List F32) :=
(List.range 4).map (fun c => (List.range 4).map (fun r =>
  (List.range 4).foldl (fun s k => F32.fadd s (F32.fmul (mIdx A k r) (mIdx B c k))) F32.pz))

/-- detail::mat4_mul_sse2: per output column, each lane r is
(A[0][r]*B[c][0] + A[1][r]*B[c][1]) + (A[2][r]*B[c][2] + A[3][r]*B[c][3]),
following the two-level _mm_add_ps tree of the source. -/
def mat4_mul_sse2 (A B : List (List F32)) : List (List F32) :=
(List.range 4).map (fun c => (List.range 4).map (fun r =>
  F32.fadd (F32.fadd (F32.fmul (mIdx A 0 r) (mIdx B c 0)) (F32.fmul (mIdx A 1 r) (mIdx B c 1)))
           (F32.fadd (F32.fmul (mIdx A 2 r) (mIdx B c 2)) (F32.fmul (mIdx A 3 r) (mIdx B c 3)))))

/-- detail::mat4_mul_neon: per output column, vmulq then three vmlaq
steps, so each lane accumulates left to right without an initial zero:
((A[0][r]*B[c][0] + A[1][r]*B[c][1]) + A[2][r]*B[c][2]) + A[3][r]*B[c][3]. -/
def mat4_mul_neon (A B : List (List F32)) : List (List F32) :=
(List.range 4).map (fun c => (List.range 4).map (fun r =>
  F32.fadd (F32.fadd (F32.fadd (F32.fmul (mIdx A 0 r) (mIdx B c 0))
                               (F32.fmul (mIdx A 1 r) (mIdx B c 1)))
                     (F32.fmul (mIdx A 2 r) (mIdx B c 2)))
           (F32.fmul (mIdx A 3 r) (mIdx B c 3))))

/-- mat4_mul from mat.hpp: the switch on simd::max_level() with the
scalar mat_mul as the default case. -/
def mat4_mul (lvl : SimdLevel) (A B : List (List F32)) : List (List F32) :=
match lvl with
| SimdLevel.neon => mat4_mul_neon A B
| SimdLevel.sse2 => mat4_mul_sse2 A B
| SimdLevel.avx => mat4_mul_sse2 A B
| SimdLevel.avx2 => mat4_mul_sse2 A B
| SimdLevel.none => mat_mul_scalar A B

/-- The generic scalar mat_mul_vec at N = 4: R[r] accumulates
s += M[c][r] * V[c] over ascending c from a value-initialized zero. -/
def mat_mul_vec (M : List (List F32)) (V : List F32) : List F32 :=
(List.range 4).map (fun r =>
  (List.range 4).foldl (fun s c => F32.fadd s (F32.fmul (mIdx M c r) (vIdx V c))) F32.pz)

/-- mat4_translate: the identity with the translation column set. -/
def mat4_translate (x y z : F32) : List (List F32) :=
[[f1, F32.pz, F32.pz, F32.pz],
 [F32.pz, f1, F32.pz, F32.pz],
 [F32.pz, F32.pz, f1, F32.pz],
 [x, y, z, f1]]

/-- mat4_rotate_x: the identity with M[1][1]=c, M[2][1]=-s, M[1][2]=s,
M[2][2]=c, where s and c come from lm::sinf and lm::cosf. -/
def mat4_rotate_x (a : F32) : List (List F32) :=
let s := sinf a
let c := cosf a
[[f1, F32.pz, F32.pz, F32.pz],
 [F32.pz, c, s, F32.pz],
 [F32.pz, F32.fneg s, c, F32.pz],
 [F32.pz, F32.pz, F32.pz, f1]]

/-- mat4_rotate_y: the identity with M[0][0]=c, M[2][0]=s, M[0][2]=-s,
M[2][2]=c. -/
def mat4_rotate_y (a : F32) : List (List F32) :=
let s := sinf a
let c := cosf a
[[c, F32.pz, F32.fneg s, F32.pz],
 [F32.pz, f1, F32.pz, F32.pz],
 [s, F32.pz, c, F32.pz],
 [F32.pz, F32.pz, F32.pz, f1]]

end lm

/-- quat_of: vector part (3 components) plus scalar part, layout
(x, y, z, w). -/
structure Quat where
v : List F32
w : F32
deriving DecidableEq

namespace lm

/-- quat_of::operator[]: the vector component for i < 3, the scalar part
for every other index (the source reads "i<3 ? v[i] : w"). -/
def quat_index (Q : Quat) (i : Nat) : F32 := if i < 3 then vIdx Q.v i else Q.w

/-- quat_identity: zero vector part, unit scalar part. -/
def quat_identity : Quat := ⟨[F32.pz, F32.pz, F32.pz], f1⟩

/-- quat_add. -/
def quat_add (A B : Quat) : Quat := ⟨vec_add A.v B.v, F32.fadd A.w B.w⟩

/-- quat_scale. -/
def quat_scale (Q : Quat) (s : F32) : Quat := ⟨vec_scale Q.v s, F32.fmul Q.w s⟩

/-- quat_dot: vec_dot of the vector parts plus the product of the
scalar parts. -/
def quat_dot (A B : Quat) : F32 := F32.fadd (vec_dot A.v B.v) (F32.fmul A.w B.w)

/-- quat_len: sqrtf of the self dot product. -/
def quat_len (Q : Quat) : F32 := sqrtf (quat_dot Q Q)

/-- quat_norm: the zero quaternion when the length compares equal to
zero, otherwise the quaternion scaled by 1/length. -/
def quat_norm (Q : Quat) : Quat :=
if F32.feq (quat_len Q) F32.pz then ⟨[F32.pz, F32.pz, F32.pz], F32.pz⟩
else quat_scale Q (F32.fdiv f1 (quat_len Q))

/-- quat_conj: negated vector part, unchanged scalar part. -/
def quat_conj (Q : Quat) : Quat := ⟨vec_neg Q.v, Q.w⟩

/-- quat_mul, the Hamilton product as written in quat.hpp:
(cross(Pv,Qv) + Pv*Qw + Qv*Pw, Pw*Qw - dot(Pv,Qv)). -/
def quat_mul (P Q : Quat) : Quat :=
⟨vec_add (vec_add (vec3_cross P.v Q.v) (vec_scale P.v Q.w)) (vec_scale Q.v P.w),
 F32.fsub (F32.fmul P.w Q.w) (vec_dot P.v Q.v)⟩

/-- The pivot-selection loop of quat_from_mat4: r starts at
value-initialized zero and each diagonal entry strictly greater than the
running maximum resets the index triple (i, (i+1)%3, (i+2)%3). -/
def qfmSel (M : List (List F32)) : F32 × Nat × Nat × Nat :=
(List.range 3).foldl
  (fun st i => if F32.fgt (mIdx M i i) st.1 then (mIdx M i i, i, (i + 1) % 3, (i + 2) % 3) else st)
  (F32.pz, 0, 1, 2)

/-- The pivot square root of quat_from_mat4:
r = sqrtf(1 + M[p0][p0] - M[p1][p1] - M[p2][p2]). -/
def qfmR (M : List (List F32)) : F32 :=
let s := qfmSel M
lm.sqrtf (F32.fsub (F32.fsub (F32.fadd f1 (mIdx M s.2.1 s.2.1)) (mIdx M s.2.2.1 s.2.2.1))
                   (mIdx M s.2.2.2 s.2.2.2))

/-- quat_from_mat4 from quat.hpp: pivot selection, the degenerate
fallback when r < 1e-6, otherwise the off-diagonal differences scaled
by 1/(2r). -/
def quat_from_mat4 (M : List (List F32)) : Quat :=
let s := qfmSel M
let p0 := s.2.1
let p1 := s.2.2.1
let p2 := s.2.2.2
let r := qfmR M
if F32.flt r (F32.flit 1 1000000) then ⟨[f1, F32.pz, F32.pz], F32.pz⟩
else
  let inv := F32.fdiv f1 (F32.fmul (F32.flit 2 1) r)
  ⟨[F32.fmul r (F32.flit 1 2),
    F32.fmul (F32.fsub (mIdx M p0 p1) (mIdx M p1 p0)) inv,
    F32.fmul (F32.fsub (mIdx M p2 p0) (mIdx M p0 p2)) inv],
   F32.fmul (F32.fsub (mIdx M p2 p1) (mIdx M p1 p2)) inv⟩

end lm

-- sanity checks of the float model against well-known binary32 facts
example : F32.flit 1 2 = F32.enc 1056964608 := by decide
example : F32.flit 1 10 = F32.enc 1036831949 := by decide
example : F32.flit 1 3 = F32.enc 1051372203 := by decide
example : F32.fadd (F32.flit 1 1) (F32.flit 2 1) = F32.flit 3 1 := by decide
example : F32.fmul (F32.flit 3 1) (F32.flit 7 1) = F32.flit 21 1 := by decide
example : F32.fdiv (F32.flit 1 1) (F32.flit 3 1) = F32.flit 1 3 := by decide
example : F32.fadd (F32.flit 16777215 1) (F32.flit 1 1) = F32.flit 16777216 1 := by decide
example : F32.fadd (F32.flit 16777216 1) (F32.flit 1 1) = F32.flit 16777216 1 := by decide
example : F32.fadd (F32.flit 16777216 1) (F32.flit 3 2) = F32.flit 16777218 1 := by decide
example : F32.fsub (F32.flit 1 1) (F32.flit 1 1) = F32.pz := by decide
example : F32.flt (F32.fneg (F32.flit 1 1)) F32.pz = true := by decide
example : F32.feq F32.pz (F32.fneg F32.pz) = true := by decide
example : F32.fle F32.qNaN F32.pz = false := by decide

-- sanity checks of the library layer against the C semantics
example : lm.PI = F32.enc 1078530011 := by decide
example : lm.PI_HALF = F32.enc 1070141403 := by decide
example : lm.PI_DOUBLE = F32.enc 1086918619 := by decide
example : F32.fadd lm.PI_HALF lm.PI_HALF = lm.PI := by decide
example : lm.sinf lm.PI_HALF = F32.enc 1065391173 := by decide
example : lm.cosf lm.PI_HALF = F32.pz := by decide
example : lm.sinf (F32.flit 7 10) = F32.enc 1059384451 := by decide
example : lm.cosf (F32.flit 7 10) = F32.enc 1050769408 := by decide
example : lm.sinf (F32.flit 13 10) = F32.enc 1064762229 := by decide
example : lm.cosf (F32.flit 13 10) = F32.enc 1029010072 := by decide
example : lm.sqrtf (F32.flit 4 1) = F32.enc 1073713423 := by decide
example : lm.sqrtf (F32.flit 2 1) = F32.enc 1068824926 := by decide
example : F32.fge (F32.flit 10000000000 1) lm.PI_DOUBLE = true := by decide
example : F32.fsub (F32.flit 10000000000 1) lm.PI_DOUBLE = F32.flit 10000000000 1 := by decide

namespace F32

theorem fneg_val (x : F32) :
    (fneg x).val = if 2147483648 ≤ x.val then x.val - 2147483648 else x.val + 2147483648 := by
  unfold fneg
  split
  · next h => simp [h]
  · next h => simp [h]

theorem sign_fneg (x : F32) : sign (fneg x) = !(sign x) := by
  have hx := x.isLt
  unfold sign
  rw [fneg_val]
  by_cases h : 2147483648 ≤ x.val
  · rw [if_pos h]
    have h1 : ¬ 2147483648 ≤ x.val - 2147483648 := by omega
    simp [h, h1]
  · rw [if_neg h]
    have h1 : 2147483648 ≤ x.val + 2147483648 := by omega
    simp [h, h1]

theorem expF_fneg (x : F32) : expF (fneg x) = expF x := by
  have hx := x.isLt
  unfold expF
  rw [fneg_val]
  split_ifs <;> omega

theorem frac_fneg (x : F32) : frac (fneg x) = frac x := by
  have hx := x.isLt
  unfold frac
  rw [fneg_val]
  split_ifs <;> omega

theorem fneg_fneg (x : F32) : fneg (fneg x) = x := by
  have hx := x.isLt
  apply Fin.ext
  rw [fneg_val, fneg_val]
  split_ifs <;> omega

theorem isNaN_fneg (x : F32) : isNaN (fneg x) = isNaN x := by
  unfold isNaN
  rw [expF_fneg, frac_fneg]

theorem isInf_fneg (x : F32) : isInf (fneg x) = isInf x := by
  unfold isInf
  rw [expF_fneg, frac_fneg]

theorem isZero_fneg (x : F32) : isZero (fneg x) = isZero x := by
  unfold isZero
  rw [expF_fneg, frac_fneg]

theorem isFinite_fneg (x : F32) : isFinite (fneg x) = isFinite x := by
  unfold isFinite
  rw [expF_fneg]

theorem fexp_fneg (x : F32) : fexp (fneg x) = fexp x := by
  unfold fexp
  rw [expF_fneg]

theorem fman_fneg (x : F32) : fman (fneg x) = fman x := by
  unfold fman
  rw [expF_fneg, frac_fneg]

theorem fmanS_fneg (x : F32) : fmanS (fneg x) = -(fmanS x) := by
  unfold fmanS
  rw [sign_fneg, fman_fneg]
  cases sign x <;> simp

theorem mkF_val (s : Bool) (e f : Nat) (he : e ≤ 255) (hf : f < 8388608) :
    (mkF s e f).val = (cond s 1 0) * 2147483648 + e * 8388608 + f := by
  unfold mkF enc
  cases s <;> simp <;> omega

theorem sign_mkF (s : Bool) (e f : Nat) (he : e ≤ 255) (hf : f < 8388608) :
    sign (mkF s e f) = s := by
  unfold sign
  rw [mkF_val s e f he hf]
  cases s
  · rw [decide_eq_false_iff_not]
    simp only [cond]
    omega
  · rw [decide_eq_true_eq]
    simp only [cond]
    omega

theorem expF_mkF (s : Bool) (e f : Nat) (he : e ≤ 255) (hf : f < 8388608) :
    expF (mkF s e f) = e := by
  unfold expF
  rw [mkF_val s e f he hf]
  cases s <;> simp only [cond] <;> omega

theorem frac_mkF (s : Bool) (e f : Nat) (he : e ≤ 255) (hf : f < 8388608) :
    frac (mkF s e f) = f := by
  unfold frac
  rw [mkF_val s e f he hf]
  cases s <;> simp only [cond] <;> omega

theorem fneg_mkF (s : Bool) (e f : Nat) (he : e ≤ 255) (hf : f < 8388608) :
    fneg (mkF s e f) = mkF (!s) e f := by
  apply Fin.ext
  rw [fneg_val, mkF_val s e f he hf, mkF_val (!s) e f he hf]
  cases s <;> simp only [cond, Bool.not_true, Bool.not_false] <;> split_ifs <;> omega

theorem isZero_zeroF (s : Bool) : isZero (zeroF s) = true := by cases s <;> decide

theorem sign_zeroF (s : Bool) : sign (zeroF s) = s := by cases s <;> decide

theorem isNaN_zeroF (s : Bool) : isNaN (zeroF s) = false := by cases s <;> decide

theorem isInf_zeroF (s : Bool) : isInf (zeroF s) = false := by cases s <;> decide

theorem fmanS_zeroF (s : Bool) : fmanS (zeroF s) = 0 := by cases s <;> decide

theorem fexp_zeroF (s : Bool) : fexp (zeroF s) = -149 := by cases s <;> decide

theorem fneg_zeroF (s : Bool) : fneg (zeroF s) = zeroF (!s) := by cases s <;> decide

theorem isNaN_infF (s : Bool) : isNaN (infF s) = false := by cases s <;> decide

theorem isInf_infF (s : Bool) : isInf (infF s) = true := by cases s <;> decide

theorem sign_infF (s : Bool) : sign (infF s) = s := by cases s <;> decide

theorem fneg_infF (s : Bool) : fneg (infF s) = infF (!s) := by cases s <;> decide

theorem isNaN_of_finite (x : F32) (h : isFinite x = true) : isNaN x = false := by
  unfold isFinite at h
  unfold isNaN
  rw [decide_eq_true_eq] at h
  rw [decide_eq_false_iff_not]
  tauto

theorem isInf_of_finite (x : F32) (h : isFinite x = true) : isInf x = false := by
  unfold isFinite at h
  unfold isInf
  rw [decide_eq_true_eq] at h
  rw [decide_eq_false_iff_not]
  tauto

theorem fexp_ge (x : F32) : -149 ≤ fexp x := by
  unfold fexp
  split <;> omega

theorem fman_eq_zero_iff (x : F32) : fman x = 0 ↔ isZero x = true := by
  unfold fman isZero
  rw [decide_eq_true_eq]
  split
  · next h => omega
  · next h =>
      constructor
      · intro hc; omega
      · intro hc; omega

theorem fmanS_eq_zero_iff (x : F32) : fmanS x = 0 ↔ isZero x = true := by
  unfold fmanS
  rw [← fman_eq_zero_iff]
  cases sign x <;> simp

theorem eq_of_parts (a b : F32) (hs : sign a = sign b) (he : expF a = expF b)
    (hf : frac a = frac b) : a = b := by
  have ha := a.isLt
  have hb := b.isLt
  unfold sign expF frac at *
  apply Fin.ext
  by_cases h1 : 2147483648 ≤ a.val <;> by_cases h2 : 2147483648 ≤ b.val <;>
    simp [h1, h2] at hs <;> omega

theorem frac_lt (x : F32) : frac x < 8388608 := Nat.mod_lt _ (by norm_num)

theorem expF_lt (x : F32) : expF x < 256 := Nat.mod_lt _ (by norm_num)

theorem isNaN_mkF (s : Bool) (e f : Nat) (he : e ≤ 255) (hf : f < 8388608)
    (hne : ¬(e = 255 ∧ f ≠ 0)) : isNaN (mkF s e f) = false := by
  unfold isNaN
  rw [expF_mkF _ _ _ he hf, frac_mkF _ _ _ he hf, decide_eq_false_iff_not]
  exact hne

theorem fneg_roundRat (s : Bool) (n d : Nat) (E : Int) :
    fneg (roundRat s n d E) = roundRat (!s) n d E := by
  simp only [roundRat]
  split_ifs
  all_goals (apply fneg_mkF <;> omega)

theorem sign_roundRat (s : Bool) (n d : Nat) (E : Int) :
    sign (roundRat s n d E) = s := by
  simp only [roundRat]
  split_ifs
  all_goals (apply sign_mkF <;> omega)

theorem isNaN_roundRat (s : Bool) (n d : Nat) (E : Int) :
    isNaN (roundRat s n d E) = false := by
  simp only [roundRat]
  split_ifs
  all_goals (apply isNaN_mkF <;> omega)

theorem rneNat_one (n : Nat) : rneNat n 1 = n := by
  unfold rneNat
  rw [Nat.mod_one, Nat.div_one]
  norm_num

theorem rneNat_mul_cancel (a c : Nat) (hc : 0 < c) : rneNat (a * c) c = a := by
  unfold rneNat
  rw [Nat.mul_div_cancel _ hc, Nat.mul_mod_left]
  simp [hc]

theorem blen_zero (f : Nat) : blen f 0 = 0 := by cases f <;> simp [blen]

theorem blen_spec :
    ∀ f n : Nat, n < 2 ^ f → 1 ≤ n →
      2 ^ (blen f n - 1) ≤ n ∧ n < 2 ^ (blen f n) ∧ 1 ≤ blen f n := by
  intro f
  induction f with
  | zero =>
      intro n h h1
      simp at h
      omega
  | succ k ih =>
      intro n h h1
      rw [blen, if_neg (by omega)]
      by_cases h2 : n = 1
      · subst h2
        rw [show (1 : Nat) / 2 = 0 from rfl, blen_zero]
        simp
      · have hn2 : 1 ≤ n / 2 := by omega
        have hlt : n / 2 < 2 ^ k := by
          have hp : (2 : Nat) ^ (k + 1) = 2 * 2 ^ k := by ring
          omega
        obtain ⟨ha, hb, hc⟩ := ih (n / 2) hlt hn2
        have e0 : blen k (n / 2) + 1 - 1 = blen k (n / 2) := by omega
        have e1 : 2 ^ blen k (n / 2) = 2 ^ (blen k (n / 2) - 1) * 2 := by
          rw [← pow_succ]
          congr 1
          omega
        have e2 : 2 ^ (blen k (n / 2) + 1) = 2 ^ blen k (n / 2) * 2 := by
          rw [← pow_succ]
        refine ⟨?_, ?_, ?_⟩
        · rw [e0]; omega
        · omega
        · omega

theorem bitlen_spec (n : Nat) (h : n < 2 ^ 512) (h1 : 1 ≤ n) :
    2 ^ (bitlen n - 1) ≤ n ∧ n < 2 ^ (bitlen n) ∧ 1 ≤ bitlen n :=
  blen_spec 512 n h h1

theorem bitlen_eq (n t : Nat) (hn : n < 2 ^ 512) (h1 : 2 ^ (t - 1) ≤ n) (h2 : n < 2 ^ t)
    (ht : 1 ≤ t) : bitlen n = t := by
  have h0 : 1 ≤ n := by
    have := Nat.one_le_two_pow (n := t - 1)
    omega
  obtain ⟨a, b, c⟩ := bitlen_spec n hn h0
  by_contra hne
  rcases Nat.lt_or_ge (bitlen n) t with hlt | hge
  · have : (2 : Nat) ^ bitlen n ≤ 2 ^ (t - 1) := Nat.pow_le_pow_right (by omega) (by omega)
    omega
  · have : (2 : Nat) ^ t ≤ 2 ^ (bitlen n - 1) := Nat.pow_le_pow_right (by omega) (by omega)
    omega

theorem bitlen_one : bitlen 1 = 1 := by decide

theorem roundRat_sub (s : Bool) (M : Nat) (h1 : 1 ≤ M) (h2 : M < 8388608) :
    roundRat s M 1 (-149) = mkF s 0 M := by
  have hM512 : M < 2 ^ 512 := by
    have h : (8388608 : Nat) ≤ 2 ^ 512 := by norm_num
    omega
  obtain ⟨b1, b2, b3⟩ := bitlen_spec M hM512 h1
  have hL23 : bitlen M ≤ 23 := by
    by_contra hc
    have h : (2 : Nat) ^ 23 ≤ 2 ^ (bitlen M - 1) := Nat.pow_le_pow_right (by norm_num) (by omega)
    omega
  have er : rneSh M 1 ((-149 : Int) + 149) = M := by
    norm_num [rneSh]
    exact rneNat_one M
  simp only [roundRat]
  rw [bitlen_one]
  have e1 : 1 - bitlen M = 0 := by omega
  rw [e1, pow_zero, mul_one, one_mul]
  rw [if_pos b1]
  have hc : ((bitlen M : Int) - ((1 : Nat) : Int) + -149) < -126 := by push_cast; omega
  rw [if_pos hc, er, if_neg (by omega), if_neg (by omega)]

theorem roundRat_norm (s : Bool) (M j : Nat) (h1 : 8388608 ≤ M) (h2 : M < 16777216)
    (hj : j ≤ 253) : roundRat s (M * 2 ^ j) 1 (-149) = mkF s (j + 1) (M - 8388608) := by
  have hp : (0 : Nat) < 2 ^ j := Nat.two_pow_pos j
  have hn512 : M * 2 ^ j < 2 ^ 512 := by
    have ha : (2 : Nat) ^ j ≤ 2 ^ 253 := Nat.pow_le_pow_right (by norm_num) hj
    have hb : M * 2 ^ j ≤ 16777216 * 2 ^ 253 := Nat.mul_le_mul (by omega) ha
    have hcc : (16777216 : Nat) * 2 ^ 253 < 2 ^ 512 := by norm_num
    omega
  have h23 : (8388608 : Nat) = 2 ^ 23 := by norm_num
  have hbn : bitlen (M * 2 ^ j) = 24 + j := by
    apply bitlen_eq _ _ hn512
    · have e : 24 + j - 1 = 23 + j := by omega
      rw [e, pow_add]
      exact Nat.mul_le_mul_right _ (by omega)
    · have e : (24 : Nat) + j = 24 + j := rfl
      rw [pow_add]
      exact (Nat.mul_lt_mul_right hp).mpr (by omega)
    · omega
  simp only [roundRat]
  rw [bitlen_one, hbn]
  have e1 : 1 - (24 + j) = 0 := by omega
  rw [e1, pow_zero, mul_one, one_mul]
  have ht : 2 ^ (24 + j - 1) ≤ M * 2 ^ j := by
    have e : 24 + j - 1 = 23 + j := by omega
    rw [e, pow_add]
    exact Nat.mul_le_mul_right _ (by omega)
  rw [if_pos ht]
  have hc : ¬ (((24 + j : Nat) : Int) - ((1 : Nat) : Int) + -149 < -126) := by push_cast; omega
  rw [if_neg hc]
  have ek : (-149 : Int) + 23 - (((24 + j : Nat) : Int) - ((1 : Nat) : Int) + -149) = -(j : Int) := by
    push_cast
    ring
  rw [ek]
  have em : rneSh (M * 2 ^ j) 1 (-(j : Int)) = M := by
    unfold rneSh
    by_cases hj0 : j = 0
    · subst hj0
      rw [if_pos (by norm_num)]
      norm_num
      exact rneNat_one M
    · rw [if_neg (by omega)]
      have e2 : (-(-(j : Int))).toNat = j := by omega
      rw [e2, one_mul]
      exact rneNat_mul_cancel M (2 ^ j) hp
  rw [em]
  rw [if_neg (by omega)]
  rw [if_neg (show ¬ ((127 : Int) < ((24 + j : Nat) : Int) - ((1 : Nat) : Int) + -149) by push_cast; omega)]
  congr 1
  push_cast
  omega

theorem isNaN_pz : isNaN pz = false := by decide

theorem isInf_pz : isInf pz = false := by decide

theorem isZero_pz : isZero pz = true := by decide

theorem sign_pz : sign pz = false := by decide

theorem fexp_pz : fexp pz = -149 := by decide

theorem fmanS_pz : fmanS pz = 0 := by decide

theorem isZero_of_inf (x : F32) (h : isInf x = true) : isZero x = false := by
  unfold isInf at h
  unfold isZero
  rw [decide_eq_true_eq] at h
  rw [decide_eq_false_iff_not]
  omega

theorem isNaN_of_zero (x : F32) (h : isZero x = true) : isNaN x = false := by
  unfold isZero at h
  unfold isNaN
  rw [decide_eq_true_eq] at h
  rw [decide_eq_false_iff_not]
  omega

theorem isInf_of_zero (x : F32) (h : isZero x = true) : isInf x = false := by
  unfold isZero at h
  unfold isInf
  rw [decide_eq_true_eq] at h
  rw [decide_eq_false_iff_not]
  omega

theorem isFinite_of_zero (x : F32) (h : isZero x = true) : isFinite x = true := by
  unfold isZero at h
  unfold isFinite
  rw [decide_eq_true_eq] at h
  rw [decide_eq_true_eq]
  omega

theorem finite_of_not_special (x : F32) (hn : isNaN x = false) (hi : isInf x = false) :
    isFinite x = true := by
  unfold isNaN at hn
  unfold isInf at hi
  unfold isFinite
  rw [decide_eq_false_iff_not] at hn
  rw [decide_eq_false_iff_not] at hi
  rw [decide_eq_true_eq]
  by_cases h : frac x = 0 <;> tauto

theorem fman_pos (x : F32) (h : isZero x = false) : 0 < fman x := by
  have := (fman_eq_zero_iff x).not
  simp [h] at this
  omega

theorem fmanS_neg_iff (x : F32) (h : isZero x = false) :
    decide (fmanS x < 0) = sign x := by
  have hp := fman_pos x h
  unfold fmanS
  cases hs : sign x
  · rw [decide_eq_false_iff_not]
    simp only [Bool.false_eq_true, if_false]
    omega
  · rw [decide_eq_true_eq]
    simp only [if_true]
    omega

theorem roundRat_exact (x : F32) (hfin : isFinite x = true) (hz : isZero x = false) :
    roundRat (sign x) (fman x * 2 ^ (fexp x + 149).toNat) 1 (-149) = x := by
  unfold isFinite at hfin
  rw [decide_eq_true_eq] at hfin
  unfold isZero at hz
  rw [decide_eq_false_iff_not] at hz
  have hfr := frac_lt x
  by_cases h0 : expF x = 0
  · have hfr0 : frac x ≠ 0 := by tauto
    have e1 : fexp x = -149 := by unfold fexp; rw [if_pos h0]
    have e2 : fman x = frac x := by unfold fman; rw [if_pos h0]
    rw [e1, e2]
    have e3 : ((-149 : Int) + 149).toNat = 0 := by norm_num
    rw [e3, pow_zero, mul_one]
    rw [roundRat_sub (sign x) (frac x) (by omega) hfr]
    apply eq_of_parts
    · rw [sign_mkF _ _ _ (by omega) hfr]
    · rw [expF_mkF _ _ _ (by omega) hfr]
      omega
    · rw [frac_mkF _ _ _ (by omega) hfr]
  · have e1 : fexp x = (expF x : Int) - 150 := by unfold fexp; rw [if_neg h0]
    have e2 : fman x = 8388608 + frac x := by unfold fman; rw [if_neg h0]
    have hee : expF x ≤ 254 := by have := expF_lt x; omega
    have e3 : (fexp x + 149).toNat = expF x - 1 := by rw [e1]; omega
    rw [e2, e3]
    rw [roundRat_norm (sign x) _ _ (by omega) (by omega) (by omega)]
    apply eq_of_parts
    · rw [sign_mkF _ _ _ (by omega) (by omega)]
    · rw [expF_mkF _ _ _ (by omega) (by omega)]
      omega
    · rw [frac_mkF _ _ _ (by omega) (by omega)]
      omega


end F32

/-- C7: for a = (1,2,3) and b = (4,5,6), vec_dot gives exactly 32,
vec_add gives exactly (5,7,9) and vec3_cross gives exactly (-3,6,-3). -/
theorem vec_ops_exact_on_123_456 :
    lm.vec_dot [F32.flit 1 1, F32.flit 2 1, F32.flit 3 1]
               [F32.flit 4 1, F32.flit 5 1, F32.flit 6 1] = F32.flit 32 1 ∧
    lm.vec_add [F32.flit 1 1, F32.flit 2 1, F32.flit 3 1]
               [F32.flit 4 1, F32.flit 5 1, F32.flit 6 1] =
      [F32.flit 5 1, F32.flit 7 1, F32.flit 9 1] ∧
    lm.vec3_cross [F32.flit 1 1, F32.flit 2 1, F32.flit 3 1]
                  [F32.flit 4 1, F32.flit 5 1, F32.flit 6 1] =
      [F32.fneg (F32.flit 3 1), F32.flit 6 1, F32.fneg (F32.flit 3 1)] := by
  refine ⟨by decide, by decide, by decide⟩

/-- C8: mat4_translate(1,2,3) applied through the scalar matrix-vector
multiply to (1,2,3,1) yields exactly (2,4,6,1). -/
theorem translate_applied_exact :
    lm.mat_mul_vec (lm.mat4_translate (F32.flit 1 1) (F32.flit 2 1) (F32.flit 3 1))
        [F32.flit 1 1, F32.flit 2 1, F32.flit 3 1, F32.flit 1 1] =
      [F32.flit 2 1, F32.flit 4 1, F32.flit 6 1, F32.flit 1 1] := by
  decide

/-- C4, counterexample: mat4_rotate_x(PI_HALF) applied to (0,1,0,1) does
NOT land within 1e-5 of (0,0,1,1): the z component is
sinf(PI_HALF) = 1.0045248..., about 4.5e-3 away from 1, because the
portable sinf is a 3-term Taylor polynomial. -/
theorem rotate_x_half_pi_not_within_1e5 :
    ¬ (F32.near (lm.vIdx (lm.mat_mul_vec (lm.mat4_rotate_x lm.PI_HALF)
          [F32.pz, lm.f1, F32.pz, lm.f1]) 0) 0 100000 ∧
       F32.near (lm.vIdx (lm.mat_mul_vec (lm.mat4_rotate_x lm.PI_HALF)
          [F32.pz, lm.f1, F32.pz, lm.f1]) 1) 0 100000 ∧
       F32.near (lm.vIdx (lm.mat_mul_vec (lm.mat4_rotate_x lm.PI_HALF)
          [F32.pz, lm.f1, F32.pz, lm.f1]) 2) 1 100000 ∧
       F32.near (lm.vIdx (lm.mat_mul_vec (lm.mat4_rotate_x lm.PI_HALF)
          [F32.pz, lm.f1, F32.pz, lm.f1]) 3) 1 100000) := by
  decide

/-- C4, amended: mat4_rotate_x(PI_HALF) applied to (0,1,0,1) lands within
1e-2 of (0,0,1,1) (the tolerance the repository's own test suite uses for
the freestanding trigonometric approximations); x and y come out exactly
0 and w exactly 1, while z is sinf(PI_HALF), within 5e-3 of 1. -/
theorem rotate_x_half_pi_within_1e2 :
    F32.near (lm.vIdx (lm.mat_mul_vec (lm.mat4_rotate_x lm.PI_HALF)
        [F32.pz, lm.f1, F32.pz, lm.f1]) 0) 0 100 ∧
    F32.near (lm.vIdx (lm.mat_mul_vec (lm.mat4_rotate_x lm.PI_HALF)
        [F32.pz, lm.f1, F32.pz, lm.f1]) 1) 0 100 ∧
    F32.near (lm.vIdx (lm.mat_mul_vec (lm.mat4_rotate_x lm.PI_HALF)
        [F32.pz, lm.f1, F32.pz, lm.f1]) 2) 1 100 ∧
    F32.near (lm.vIdx (lm.mat_mul_vec (lm.mat4_rotate_x lm.PI_HALF)
        [F32.pz, lm.f1, F32.pz, lm.f1]) 3) 1 100 := by
  refine ⟨by decide, by decide, by decide, by decide⟩

/-- C1, counterexample: the scalar path of vec4_dot is NOT bit-identical
to the SSE2 path (nor to the NEON path) for every input: for
a = (2^-60, 1, -1, 2^-60), b = (1,1,1,1), the scalar left-to-right sum
gives 2^-60 while both horizontal-add orders give +0, because float
addition is not associative. -/
theorem vec4_dot_dispatch_not_bit_identical :
    lm.vec4_dot SimdLevel.none
        [F32.flit 1 1152921504606846976, lm.f1, F32.fneg lm.f1, F32.flit 1 1152921504606846976]
        [lm.f1, lm.f1, lm.f1, lm.f1] ≠
      lm.vec4_dot SimdLevel.sse2
        [F32.flit 1 1152921504606846976, lm.f1, F32.fneg lm.f1, F32.flit 1 1152921504606846976]
        [lm.f1, lm.f1, lm.f1, lm.f1] ∧
    lm.vec4_dot SimdLevel.none
        [F32.flit 1 1152921504606846976, lm.f1, F32.fneg lm.f1, F32.flit 1 1152921504606846976]
        [lm.f1, lm.f1, lm.f1, lm.f1] ≠
      lm.vec4_dot SimdLevel.neon
        [F32.flit 1 1152921504606846976, lm.f1, F32.fneg lm.f1, F32.flit 1 1152921504606846976]
        [lm.f1, lm.f1, lm.f1, lm.f1] := by
  refine ⟨by decide, by decide⟩

/-- C1, amended: on the concrete pair the specification tests,
A = rotation 0.7 rad about X and B = rotation 1.3 rad about Y, the 4x4
multiply is bit-identical on the scalar, SSE2 and NEON dispatch paths
(the universal bit-identity claimed for all inputs fails, see the
counterexample for vec4_dot above). -/
theorem mat4_mul_dispatch_bit_identical_on_rotation_pair :
    lm.mat4_mul SimdLevel.none (lm.mat4_rotate_x (F32.flit 7 10)) (lm.mat4_rotate_y (F32.flit 13 10)) =
      lm.mat4_mul SimdLevel.sse2 (lm.mat4_rotate_x (F32.flit 7 10)) (lm.mat4_rotate_y (F32.flit 13 10)) ∧
    lm.mat4_mul SimdLevel.none (lm.mat4_rotate_x (F32.flit 7 10)) (lm.mat4_rotate_y (F32.flit 13 10)) =
      lm.mat4_mul SimdLevel.neon (lm.mat4_rotate_x (F32.flit 7 10)) (lm.mat4_rotate_y (F32.flit 13 10)) := by
  refine ⟨by decide, by decide⟩

/-- C3, counterexample: for the matrix whose only nonzero entry is
M[0][0] = -1 the pivot test of quat_from_mat4 fires (the radicand
1 + M[0][0] - M[1][1] - M[2][2] is exactly 0, so r = 0 < 1e-6), yet the
function does not return the identity quaternion: the fallback is the
quaternion with vector part (1,0,0) and scalar part 0. -/
theorem quat_from_mat4_degenerate_not_identity :
    F32.flt (lm.qfmR [[F32.fneg lm.f1, F32.pz, F32.pz, F32.pz],
                      [F32.pz, F32.pz, F32.pz, F32.pz],
                      [F32.pz, F32.pz, F32.pz, F32.pz],
                      [F32.pz, F32.pz, F32.pz, F32.pz]]) (F32.flit 1 1000000) = true ∧
    lm.quat_from_mat4 [[F32.fneg lm.f1, F32.pz, F32.pz, F32.pz],
                       [F32.pz, F32.pz, F32.pz, F32.pz],
                       [F32.pz, F32.pz, F32.pz, F32.pz],
                       [F32.pz, F32.pz, F32.pz, F32.pz]] ≠ lm.quat_identity := by
  refine ⟨by decide, by decide⟩

/-- C3, amended: whenever the pivot test of quat_from_mat4 fires (the
square root r of the pivot's radicand compares below 1e-6), the function
returns the safe fallback quaternion with vector part (1,0,0) and scalar
part 0 (a half-turn about X, not the identity). -/
theorem quat_from_mat4_degenerate_fallback (M : List (List F32))
    (h : F32.flt (lm.qfmR M) (F32.flit 1 1000000) = true) :
    lm.quat_from_mat4 M = ⟨[lm.f1, F32.pz, F32.pz], F32.pz⟩ := by
  unfold lm.quat_from_mat4
  simp only [h, if_true]

/-- C3, witness: the amended fallback theorem applied to the concrete
degenerate matrix diag(-1,0,0,0). -/
theorem quat_from_mat4_degenerate_fallback_witness :
    lm.quat_from_mat4 [[F32.fneg lm.f1, F32.pz, F32.pz, F32.pz],
                       [F32.pz, F32.pz, F32.pz, F32.pz],
                       [F32.pz, F32.pz, F32.pz, F32.pz],
                       [F32.pz, F32.pz, F32.pz, F32.pz]] = ⟨[lm.f1, F32.pz, F32.pz], F32.pz⟩ :=
  quat_from_mat4_degenerate_fallback _ (by decide)

/-- C9: lm::sqrtf returns exactly +0 (in particular never NaN) for every
float that compares less than or equal to zero, which includes every
negative float, both zeros and negative infinity; consequently vec_len of
the all-zero 3-vector is exactly +0. -/
theorem sqrtf_nonpositive_zero :
    (∀ X : F32, F32.fle X F32.pz = true → lm.sqrtf X = F32.pz) ∧
    lm.vec_len [F32.pz, F32.pz, F32.pz] = F32.pz := by
  constructor
  · intro X h
    unfold lm.sqrtf
    simp only [h, if_true]
  · decide

/-- C9, witness: the nonpositive-input branch applied at X = -1. -/
theorem sqrtf_nonpositive_zero_witness : lm.sqrtf (F32.fneg lm.f1) = F32.pz :=
  sqrtf_nonpositive_zero.1 _ (by decide)

/-- C10: quaternion indexing is total: every index below 3 reads the
vector component and every index from 3 on (3, 4, 5, ...) reads the
scalar part, so no index reaches outside the stored components. -/
theorem quat_index_total :
    ∀ (Q : Quat) (i : Nat),
      (i < 3 → lm.quat_index Q i = lm.vIdx Q.v i) ∧ (3 ≤ i → lm.quat_index Q i = Q.w) := by
  intro Q i
  constructor
  · intro h
    unfold lm.quat_index
    rw [if_pos h]
  · intro h
    unfold lm.quat_index
    rw [if_neg (by omega)]

/-- C10, witness: indexing the quaternion (1,2,3,4) at the in-range
index 1 and at the out-of-range index 5. -/
theorem quat_index_total_witness :
    lm.quat_index ⟨[F32.flit 1 1, F32.flit 2 1, F32.flit 3 1], F32.flit 4 1⟩ 1 =
      lm.vIdx [F32.flit 1 1, F32.flit 2 1, F32.flit 3 1] 1 ∧
    lm.quat_index ⟨[F32.flit 1 1, F32.flit 2 1, F32.flit 3 1], F32.flit 4 1⟩ 5 = F32.flit 4 1 :=
  ⟨(quat_index_total _ 1).1 (by omega), (quat_index_total _ 5).2 (by omega)⟩

/-- C2: when the computed length compares equal to zero, vec_norm returns
the all-zero vector and quat_norm returns the zero quaternion, so no NaN
or Inf component is ever produced in that case. -/
theorem norm_zero_length_returns_zero :
    (∀ V : List F32, F32.feq (lm.vec_len V) F32.pz = true →
       lm.vec_norm V = List.replicate V.length F32.pz) ∧
    (∀ Q : Quat, F32.feq (lm.quat_len Q) F32.pz = true →
       lm.quat_norm Q = ⟨[F32.pz, F32.pz, F32.pz], F32.pz⟩) := by
  constructor
  · intro V h
    unfold lm.vec_norm
    simp only [h, if_true]
  · intro Q h
    unfold lm.quat_norm
    simp only [h, if_true]

/-- C2, witness: the zero-length branches applied to the all-zero
3-vector and to the zero quaternion. -/
theorem norm_zero_length_returns_zero_witness :
    lm.vec_norm [F32.pz, F32.pz, F32.pz] = List.replicate 3 F32.pz ∧
    lm.quat_norm ⟨[F32.pz, F32.pz, F32.pz], F32.pz⟩ = ⟨[F32.pz, F32.pz, F32.pz], F32.pz⟩ :=
  ⟨norm_zero_length_returns_zero.1 [F32.pz, F32.pz, F32.pz] (by decide),
   norm_zero_length_returns_zero.2 ⟨[F32.pz, F32.pz, F32.pz], F32.pz⟩ (by decide)⟩

/-- Stall lemma for C5: subtracting PI_DOUBLE from the float 1e10 gives
back 1e10 exactly (2*pi is below half an ulp of 1e10), while
1e10 >= PI_DOUBLE holds, so the first range-reduction loop of lm::sinf
never exits at this input, whatever the fuel. -/
theorem redDown_stalls_at_1e10 :
    ∀ fuel : Nat, lm.redDown fuel (F32.flit 10000000000 1) = Option.none := by
  intro fuel
  induction fuel with
  | zero => decide
  | succ n ih =>
      have hge : F32.fge (F32.flit 10000000000 1) lm.PI_DOUBLE = true := by decide
      have hs : F32.fsub (F32.flit 10000000000 1) lm.PI_DOUBLE = F32.flit 10000000000 1 := by
        decide
      simp only [lm.redDown, hge, if_true, hs, ih]

/-- Stall lemma for C5, tanf loop: the same input stalls the
"while (X > PI) X -= PI_DOUBLE" loop of lm::tanf. -/
theorem tanRedDown_stalls_at_1e10 :
    ∀ fuel : Nat, lm.tanRedDown fuel (F32.flit 10000000000 1) = Option.none := by
  intro fuel
  induction fuel with
  | zero => decide
  | succ n ih =>
      have hgt : F32.fgt (F32.flit 10000000000 1) lm.PI = true := by decide
      have hs : F32.fsub (F32.flit 10000000000 1) lm.PI_DOUBLE = F32.flit 10000000000 1 := by
        decide
      simp only [lm.tanRedDown, hgt, if_true, hs, ih]

/-- C5: the range-reduction loops of lm::sinf and lm::tanf do NOT
terminate for every finite float: at the finite input 1e10f the
subtraction X - PI_DOUBLE rounds back to X, so no amount of fuel makes
either function finish. -/
theorem sinf_tanf_reduction_diverges_at_1e10 :
    ∀ fuel : Nat,
      lm.sinfFuel fuel (F32.flit 10000000000 1) = Option.none ∧
      lm.tanfFuel fuel (F32.flit 10000000000 1) = Option.none := by
  intro fuel
  constructor
  · unfold lm.sinfFuel
    rw [redDown_stalls_at_1e10 fuel]
  · unfold lm.tanfFuel
    rw [tanRedDown_stalls_at_1e10 fuel]

namespace F32

theorem fmul_comm (a b : F32) : fmul a b = fmul b a := by
  simp only [fmul]
  rw [show (sign a != sign b) = (sign b != sign a) by cases sign a <;> cases sign b <;> rfl,
      Bool.or_comm (isNaN a), Bool.or_comm (isInf a), Bool.or_comm (isZero a),
      Nat.mul_comm (fman a), Int.add_comm (fexp a)]

theorem fmul_negR (a b : F32) (ha : isFinite a = true) (hb : isFinite b = true) :
    fmul a (fneg b) = fneg (fmul a b) := by
  have hna := isNaN_of_finite a ha
  have hnb := isNaN_of_finite b hb
  have hia := isInf_of_finite a ha
  have hib := isInf_of_finite b hb
  have c1 : (isNaN a || isNaN (fneg b)) = false := by simp [hna, hnb, isNaN_fneg]
  have c2 : (isNaN a || isNaN b) = false := by simp [hna, hnb]
  have c3 : (isInf a || isInf (fneg b)) = false := by simp [hia, hib, isInf_fneg]
  have c4 : (isInf a || isInf b) = false := by simp [hia, hib]
  simp only [fmul, c1, c2, c3, c4, Bool.false_eq_true, if_false]
  rw [fman_fneg, fexp_fneg, sign_fneg, apply_ite fneg, fneg_zeroF, fneg_roundRat]
  rw [show (sign a != !sign b) = !(sign a != sign b) by cases sign a <;> cases sign b <;> rfl]

theorem fmul_negL (a b : F32) (ha : isFinite a = true) (hb : isFinite b = true) :
    fmul (fneg a) b = fneg (fmul a b) := by
  rw [fmul_comm, fmul_negR b a hb ha, fmul_comm]

theorem fadd_comm (a b : F32) : fadd a b = fadd b a := by
  unfold fadd
  by_cases hna : isNaN a = true
  · simp [hna]
  · by_cases hnb : isNaN b = true
    · simp [hnb]
    · simp only [Bool.not_eq_true] at hna hnb
      by_cases hia : isInf a = true
      · by_cases hib : isInf b = true
        · by_cases hs : sign a = sign b
          · have hab : a = b := by
              unfold isInf at hia hib
              rw [decide_eq_true_eq] at hia hib
              exact eq_of_parts a b hs (by omega) (by omega)
            rw [hab]
          · have h1 : (sign a != sign b) = true := by
              cases hA : sign a <;> cases hB : sign b <;> simp_all
            have h2 : (sign b != sign a) = true := by
              cases hA : sign a <;> cases hB : sign b <;> simp_all
            simp [hna, hnb, hia, hib, h1, h2]
        · simp [hna, hnb, hia, hib]
      · by_cases hib : isInf b = true
        · simp [hna, hnb, hia, hib]
        · simp only [Bool.not_eq_true] at hia hib
          have c1 : (isNaN a || isNaN b) = false := by simp [hna, hnb]
          have c2 : (isNaN b || isNaN a) = false := by simp [hna, hnb]
          simp only [c1, c2, hia, hib, Bool.false_eq_true, if_false]
          rw [Int.add_comm (fmanS a * _), min_comm (fexp a), Bool.and_comm (isZero a),
              Bool.and_comm (sign a)]

theorem fadd_cancel (x : F32) (hf : isFinite x = true) : fadd x (fneg x) = pz := by
  have hn := isNaN_of_finite x hf
  have hi := isInf_of_finite x hf
  have c1 : (isNaN x || isNaN (fneg x)) = false := by simp [hn, isNaN_fneg]
  simp only [fadd, c1, Bool.false_eq_true, if_false, hi, isInf_fneg, fmanS_fneg, fexp_fneg,
             Int.sub_self, Int.toNat_zero, pow_zero, mul_one]
  rw [if_pos (by omega : fmanS x + -fmanS x = 0)]
  by_cases hz : isZero x = true
  · rw [if_pos (by simp [hz, isZero_fneg]), sign_fneg,
        show (sign x && !sign x) = false by cases sign x <;> rfl]
    rfl
  · rw [if_neg (by simp [hz, isZero_fneg])]

theorem fadd_neg_self (P : F32) (hf : isFinite P = true) : fadd (fneg P) P = pz := by
  rw [fadd_comm]
  exact fadd_cancel P hf

theorem fadd_zeroL (z m : F32) (hz : isZero z = true) (hm : isNaN m = false) :
    fadd z m = if isZero m = true then zeroF (sign z && sign m) else m := by
  have hzn := isNaN_of_zero z hz
  have hzi := isInf_of_zero z hz
  have c1 : (isNaN z || isNaN m) = false := by simp [hzn, hm]
  simp only [fadd, c1, Bool.false_eq_true, if_false, hzi]
  by_cases him : isInf m = true
  · rw [if_pos him, isZero_of_inf m him]
    simp
  · rw [if_neg him]
    have him0 : isInf m = false := by simpa using him
    have h1 : fmanS z = 0 := (fmanS_eq_zero_iff z).mpr hz
    have h2 : fexp z = -149 := by
      unfold isZero at hz
      rw [decide_eq_true_eq] at hz
      unfold fexp
      rw [if_pos hz.1]
    rw [h1, h2]
    simp only [Int.zero_mul, Int.zero_add]
    by_cases hzm : isZero m = true
    · have h3 : fmanS m = 0 := (fmanS_eq_zero_iff m).mpr hzm
      rw [h3]
      simp only [Int.zero_mul]
      simp only [if_true]
      rw [if_pos (by simp [hz, hzm]), if_pos hzm]
    · have hzm0 : isZero m = false := by simpa using hzm
      have hp : (0 : Int) < 2 ^ (fexp m - -149).toNat := by positivity
      have h3 : fmanS m ≠ 0 := by
        intro hc
        rw [(fmanS_eq_zero_iff m).mp hc] at hzm0
        exact absurd hzm0 (by simp)
      have h4 : fmanS m * 2 ^ (fexp m - -149).toNat ≠ 0 := by
        intro hc
        rcases Int.mul_eq_zero.mp hc with h | h
        · exact h3 h
        · omega
      rw [if_neg h4, if_neg hzm]
      have h5 : decide (fmanS m * 2 ^ (fexp m - -149).toNat < 0) = sign m := by
        rw [← fmanS_neg_iff m hzm0, decide_eq_decide]
        constructor
        · intro h
          nlinarith
        · intro h
          exact mul_neg_of_neg_of_pos h hp
      have h6 : (fmanS m * 2 ^ (fexp m - -149).toNat).natAbs =
          fman m * 2 ^ (fexp m + 149).toNat := by
        rw [Int.natAbs_mul]
        congr 1
        · unfold fmanS
          cases sign m <;> simp
        · rw [show fexp m - -149 = fexp m + 149 by ring]
          rw [Int.natAbs_pow]
          rfl
      have h7 : min (-149 : Int) (fexp m) = -149 := min_eq_left (fexp_ge m)
      rw [h5, h6, h7]
      exact roundRat_exact m (finite_of_not_special m hm him0) hzm0

theorem fadd_pz_left (m : F32) (hm : isNaN m = false) :
    fadd pz m = if isZero m = true then pz else m := by
  rw [fadd_zeroL pz m isZero_pz hm, sign_pz]
  by_cases h : isZero m = true
  · rw [if_pos h, if_pos h]
    rfl
  · rw [if_neg h, if_neg h]

theorem fadd_zeroR (m z : F32) (hz : isZero z = true) (hm : isNaN m = false) :
    fadd m z = if isZero m = true then zeroF (sign m && sign z) else m := by
  rw [fadd_comm, fadd_zeroL z m hz hm, Bool.and_comm (sign z)]

theorem feq_refl (x : F32) (h : isNaN x = false) : feq x x = true := by
  unfold feq
  rw [if_neg (by simp [h])]
  by_cases hi : isInf x = true
  · rw [if_pos (by simp [hi])]
    simp
  · rw [if_neg (by simp [hi])]
    simp

theorem feq_zeros (a b : F32) (ha : isZero a = true) (hb : isZero b = true) : feq a b = true := by
  unfold feq
  rw [if_neg (by simp [isNaN_of_zero a ha, isNaN_of_zero b hb])]
  rw [if_neg (by simp [isInf_of_zero a ha, isInf_of_zero b hb])]
  rw [(fmanS_eq_zero_iff a).mpr ha, (fmanS_eq_zero_iff b).mpr hb]
  simp

theorem comp_zero (m : F32) (hf : isFinite m = true) : fadd (fadd pz m) (fneg m) = pz := by
  have hn := isNaN_of_finite m hf
  rw [fadd_pz_left m hn]
  by_cases hz : isZero m = true
  · rw [if_pos hz, fadd_pz_left (fneg m) (by rw [isNaN_fneg]; exact hn),
        if_pos (by rw [isZero_fneg]; exact hz)]
  · rw [if_neg hz]
    exact fadd_cancel m hf


theorem fadd_finite (u v : F32) (h1 : isNaN u = false) (h2 : isNaN v = false)
    (h3 : isInf u = false) (h4 : isInf v = false) :
    fadd u v =
      if fmanS u * 2 ^ (fexp u - fexp v).toNat + fmanS v * 2 ^ (fexp v - fexp u).toNat = 0 then
        (if (isZero u && isZero v) = true then zeroF (sign u && sign v) else pz)
      else
        roundRat
          (decide (fmanS u * 2 ^ (fexp u - fexp v).toNat + fmanS v * 2 ^ (fexp v - fexp u).toNat < 0))
          (fmanS u * 2 ^ (fexp u - fexp v).toNat + fmanS v * 2 ^ (fexp v - fexp u).toNat).natAbs 1
          (min (fexp u) (fexp v)) := by
  simp only [fadd]
  rw [if_neg (by simp [h1, h2]), if_neg (by simp [h3]), if_neg (by simp [h4])]

theorem fmanS_nonneg_of (x : F32) (hx : isZero x = false → sign x = false) : 0 ≤ fmanS x := by
  by_cases hz : isZero x = true
  · rw [(fmanS_eq_zero_iff x).mpr hz]
  · have hs := hx (by simpa using hz)
    unfold fmanS
    rw [hs]
    simp

theorem square_nonneg (v : F32) (hf : isFinite v = true) : NonnegF (fmul v v) := by
  have hn := isNaN_of_finite v hf
  have hi := isInf_of_finite v hf
  have hs : (sign v != sign v) = false := by cases sign v <;> rfl
  simp only [fmul, hs]
  rw [if_neg (by simp [hn]), if_neg (by simp [hi])]
  by_cases hz : fman v * fman v = 0
  · rw [if_pos hz]
    exact ⟨isNaN_zeroF false, fun _ => sign_zeroF false⟩
  · rw [if_neg hz]
    exact ⟨isNaN_roundRat _ _ _ _, fun _ => sign_roundRat _ _ _ _⟩

theorem fadd_nonneg (a b : F32) (ha : NonnegF a) (hb : NonnegF b) : NonnegF (fadd a b) := by
  obtain ⟨hna, hsa⟩ := ha
  obtain ⟨hnb, hsb⟩ := hb
  by_cases hia : isInf a = true
  · have hsa2 : sign a = false := hsa (isZero_of_inf a hia)
    have e1 : fadd a b = a := by
      simp only [fadd]
      rw [if_neg (by simp [hna, hnb]), if_pos hia]
      by_cases hib : isInf b = true
      · rw [if_neg (by simp [hib, hsa2, hsb (isZero_of_inf b hib)])]
      · rw [if_neg (by simp [hib])]
    rw [e1]
    exact ⟨hna, hsa⟩
  · by_cases hib : isInf b = true
    · have e1 : fadd a b = b := by
        simp only [fadd]
        rw [if_neg (by simp [hna, hnb]), if_neg hia, if_pos hib]
      rw [e1]
      exact ⟨hnb, hsb⟩
    · have hia0 : isInf a = false := by simpa using hia
      have hib0 : isInf b = false := by simpa using hib
      rw [fadd_finite a b hna hnb hia0 hib0]
      have hnn : (0 : Int) ≤ fmanS a * 2 ^ (fexp a - fexp b).toNat +
          fmanS b * 2 ^ (fexp b - fexp a).toNat := by
        have p1 := fmanS_nonneg_of a hsa
        have p2 := fmanS_nonneg_of b hsb
        positivity
      by_cases h0 : fmanS a * 2 ^ (fexp a - fexp b).toNat +
          fmanS b * 2 ^ (fexp b - fexp a).toNat = 0
      · rw [if_pos h0]
        by_cases hzz : (isZero a && isZero b) = true
        · rw [if_pos hzz]
          refine ⟨isNaN_zeroF _, ?_⟩
          intro h
          rw [isZero_zeroF] at h
          simp at h
        · rw [if_neg hzz]
          exact ⟨isNaN_pz, fun _ => sign_pz⟩
      · rw [if_neg h0]
        rw [show decide (fmanS a * 2 ^ (fexp a - fexp b).toNat +
            fmanS b * 2 ^ (fexp b - fexp a).toNat < 0) = false by
          rw [decide_eq_false_iff_not]; omega]
        exact ⟨isNaN_roundRat _ _ _ _, fun _ => sign_roundRat _ _ _ _⟩

theorem dot_neg_step (a a2 p : F32) (hpn : NonnegF p) (han : NonnegF a)
    (ha : a2 = fneg a ∨ (isZero a = true ∧ isZero a2 = true)) :
    fadd a2 (fneg p) = fneg (fadd a p) ∨
      (isZero (fadd a p) = true ∧ isZero (fadd a2 (fneg p)) = true) := by
  obtain ⟨hnp, hsp⟩ := hpn
  obtain ⟨hna, hsa⟩ := han
  rcases ha with rfl | ⟨hz, hz2⟩
  · by_cases hia : isInf a = true
    · have hsa2 : sign a = false := hsa (isZero_of_inf a hia)
      left
      have e1 : fadd a p = a := by
        simp only [fadd]
        rw [if_neg (by simp [hna, hnp]), if_pos hia]
        by_cases hip : isInf p = true
        · rw [if_neg (by simp [hip, hsa2, hsp (isZero_of_inf p hip)])]
        · rw [if_neg (by simp [hip])]
      have e2 : fadd (fneg a) (fneg p) = fneg a := by
        simp only [fadd]
        rw [if_neg (by simp [isNaN_fneg, hna, hnp]), if_pos (by rw [isInf_fneg]; exact hia)]
        by_cases hip : isInf p = true
        · rw [if_neg (by simp [isInf_fneg, hip, sign_fneg, hsa2, hsp (isZero_of_inf p hip)])]
        · rw [if_neg (by simp [isInf_fneg, hip])]
      rw [e1, e2]
    · by_cases hip : isInf p = true
      · left
        have e1 : fadd a p = p := by
          simp only [fadd]
          rw [if_neg (by simp [hna, hnp]), if_neg hia, if_pos hip]
        have e2 : fadd (fneg a) (fneg p) = fneg p := by
          simp only [fadd]
          rw [if_neg (by simp [isNaN_fneg, hna, hnp]),
              if_neg (by rw [isInf_fneg]; simpa using hia), if_pos (by rw [isInf_fneg]; exact hip)]
        rw [e1, e2]
      · have hia0 : isInf a = false := by simpa using hia
        have hip0 : isInf p = false := by simpa using hip
        rw [fadd_finite a p hna hnp hia0 hip0,
            fadd_finite (fneg a) (fneg p) (by simp [isNaN_fneg, hna]) (by simp [isNaN_fneg, hnp])
              (by simp [isInf_fneg, hia0]) (by simp [isInf_fneg, hip0])]
        set S : Int := fmanS a * 2 ^ (fexp a - fexp p).toNat +
          fmanS p * 2 ^ (fexp p - fexp a).toNat with hS
        have hsum2 : fmanS (fneg a) * 2 ^ (fexp (fneg a) - fexp (fneg p)).toNat +
            fmanS (fneg p) * 2 ^ (fexp (fneg p) - fexp (fneg a)).toNat = -S := by
          rw [fmanS_fneg a, fmanS_fneg p, fexp_fneg a, fexp_fneg p, hS]
          ring
        rw [hsum2, fexp_fneg a, fexp_fneg p]
        by_cases h0 : S = 0
        · right
          constructor
          · split_ifs <;> first | exact isZero_zeroF _ | exact isZero_pz | omega
          · split_ifs <;> first | exact isZero_zeroF _ | exact isZero_pz | omega
        · left
          rw [if_neg h0, if_neg (show ¬(-S = 0) by omega)]
          have hh : decide (-S < 0) = !decide (S < 0) := by
            by_cases hlt : S < 0
            · simp [hlt, show ¬(-S < 0) by omega]
            · simp [hlt, show -S < 0 by omega]
          rw [hh, Int.natAbs_neg]
          exact (fneg_roundRat _ _ _ _).symm
  · have hna2 : isNaN a2 = false := isNaN_of_zero a2 hz2
    by_cases hzp : isZero p = true
    · right
      rw [fadd_zeroL a p hz hnp, fadd_zeroL a2 (fneg p) hz2 (by simp [isNaN_fneg, hnp])]
      rw [if_pos hzp, if_pos (by simp [isZero_fneg, hzp])]
      exact ⟨isZero_zeroF _, isZero_zeroF _⟩
    · left
      rw [fadd_zeroL a p hz hnp, fadd_zeroL a2 (fneg p) hz2 (by simp [isNaN_fneg, hnp])]
      rw [if_neg hzp, if_neg (by simp [isZero_fneg, hzp])]


theorem cross_term_zero (u v : F32) (hu : isFinite u = true) (hv : isFinite v = true)
    (hp : isFinite (fmul u v) = true) :
    fsub (fmul u (fneg v)) (fmul v (fneg u)) = pz := by
  unfold fsub
  rw [fmul_negR u v hu hv, fmul_negR v u hv hu, fmul_comm v u, fneg_fneg]
  exact fadd_neg_self (fmul u v) hp

theorem vec_comp_zero (u w : F32) (hu : isFinite u = true) (hw : isFinite w = true)
    (hp : isFinite (fmul u w) = true) :
    fadd (fadd pz (fmul u w)) (fmul (fneg u) w) = pz := by
  rw [fmul_negL u w hu hw]
  exact comp_zero (fmul u w) hp

end F32

/-- C6, amended: for every quaternion q whose four components are finite
floats and whose pairwise component products do not overflow, the product
quat_mul(q, quat_conj(q)) has vector part bitwise (+0, +0, +0) and scalar
part comparing IEEE-equal to quat_dot(q, q).  (The unrestricted claim is
false for NaN components, see the counterexample.) -/
theorem quat_mul_conj_pure_scalar (x y z w : F32)
    (hx : F32.isFinite x = true) (hy : F32.isFinite y = true)
    (hz : F32.isFinite z = true) (hw : F32.isFinite w = true)
    (hyz : F32.isFinite (F32.fmul y z) = true)
    (hzx : F32.isFinite (F32.fmul z x) = true)
    (hxy : F32.isFinite (F32.fmul x y) = true)
    (hxw : F32.isFinite (F32.fmul x w) = true)
    (hyw : F32.isFinite (F32.fmul y w) = true)
    (hzw : F32.isFinite (F32.fmul z w) = true) :
    (lm.quat_mul ⟨[x, y, z], w⟩ (lm.quat_conj ⟨[x, y, z], w⟩)).v = [F32.pz, F32.pz, F32.pz] ∧
    F32.feq (lm.quat_mul ⟨[x, y, z], w⟩ (lm.quat_conj ⟨[x, y, z], w⟩)).w
      (lm.quat_dot ⟨[x, y, z], w⟩ ⟨[x, y, z], w⟩) = true := by
  constructor
  · show [F32.fadd (F32.fadd (F32.fsub (F32.fmul y (F32.fneg z)) (F32.fmul z (F32.fneg y)))
            (F32.fmul x w)) (F32.fmul (F32.fneg x) w),
          F32.fadd (F32.fadd (F32.fsub (F32.fmul z (F32.fneg x)) (F32.fmul x (F32.fneg z)))
            (F32.fmul y w)) (F32.fmul (F32.fneg y) w),
          F32.fadd (F32.fadd (F32.fsub (F32.fmul x (F32.fneg y)) (F32.fmul y (F32.fneg x)))
            (F32.fmul z w)) (F32.fmul (F32.fneg z) w)] = [F32.pz, F32.pz, F32.pz]
    rw [F32.cross_term_zero y z hy hz hyz, F32.cross_term_zero z x hz hx hzx,
        F32.cross_term_zero x y hx hy hxy]
    rw [F32.vec_comp_zero x w hx hw hxw, F32.vec_comp_zero y w hy hw hyw,
        F32.vec_comp_zero z w hz hw hzw]
  · show F32.feq
        (F32.fsub (F32.fmul w w)
          (F32.fadd (F32.fadd (F32.fadd F32.pz (F32.fmul x (F32.fneg x)))
            (F32.fmul y (F32.fneg y))) (F32.fmul z (F32.fneg z))))
        (F32.fadd (F32.fadd (F32.fadd (F32.fadd F32.pz (F32.fmul x x)) (F32.fmul y y))
          (F32.fmul z z)) (F32.fmul w w)) = true
    rw [F32.fmul_negR x x hx hx, F32.fmul_negR y y hy hy, F32.fmul_negR z z hz hz]
    have hnz : F32.NonnegF F32.pz := ⟨F32.isNaN_pz, fun _ => F32.sign_pz⟩
    have np1 := F32.square_nonneg x hx
    have np2 := F32.square_nonneg y hy
    have np3 := F32.square_nonneg z hz
    have npw := F32.square_nonneg w hw
    have st1 := F32.dot_neg_step F32.pz F32.pz (F32.fmul x x) np1 hnz
      (Or.inr ⟨F32.isZero_pz, F32.isZero_pz⟩)
    have nn1 := F32.fadd_nonneg F32.pz (F32.fmul x x) hnz np1
    have st2 := F32.dot_neg_step (F32.fadd F32.pz (F32.fmul x x))
      (F32.fadd F32.pz (F32.fneg (F32.fmul x x))) (F32.fmul y y) np2 nn1 st1
    have nn2 := F32.fadd_nonneg _ _ nn1 np2
    have st3 := F32.dot_neg_step _ _ (F32.fmul z z) np3 nn2 st2
    have nn3 := F32.fadd_nonneg _ _ nn2 np3
    unfold F32.fsub
    rcases st3 with he | ⟨hz1, hz2⟩
    · rw [he, F32.fneg_fneg, F32.fadd_comm (F32.fmul w w)]
      exact F32.feq_refl _ (F32.fadd_nonneg _ _ nn3 npw).1
    · rw [F32.fadd_zeroR (F32.fmul w w) _ (by rw [F32.isZero_fneg]; exact hz2) npw.1,
          F32.fadd_zeroL _ (F32.fmul w w) hz1 npw.1]
      by_cases hzw2 : F32.isZero (F32.fmul w w) = true
      · rw [if_pos hzw2, if_pos hzw2]
        exact F32.feq_zeros _ _ (F32.isZero_zeroF _) (F32.isZero_zeroF _)
      · rw [if_neg hzw2, if_neg hzw2]
        exact F32.feq_refl _ npw.1

/-- C6, counterexample: for the quaternion (NaN, 0, 0, 0) the product
quat_mul(q, conj(q)) has a NaN in its vector part and a NaN scalar part,
so neither the vector part compares equal to (0,0,0) nor the scalar part
to dot(q,q): the unrestricted universal claim is false. -/
theorem quat_mul_conj_nan_counterexample :
    ¬ ((lm.quat_mul ⟨[F32.qNaN, F32.pz, F32.pz], F32.pz⟩
          (lm.quat_conj ⟨[F32.qNaN, F32.pz, F32.pz], F32.pz⟩)).v.all
            (fun c => F32.feq c F32.pz) = true ∧
       F32.feq (lm.quat_mul ⟨[F32.qNaN, F32.pz, F32.pz], F32.pz⟩
            (lm.quat_conj ⟨[F32.qNaN, F32.pz, F32.pz], F32.pz⟩)).w
          (lm.quat_dot ⟨[F32.qNaN, F32.pz, F32.pz], F32.pz⟩
            ⟨[F32.qNaN, F32.pz, F32.pz], F32.pz⟩) = true) := by
  decide

/-- C6, witness: the amended theorem applied to the finite quaternion
(1, 2, 3, 4). -/
theorem quat_mul_conj_pure_scalar_witness :
    (lm.quat_mul ⟨[F32.flit 1 1, F32.flit 2 1, F32.flit 3 1], F32.flit 4 1⟩
       (lm.quat_conj ⟨[F32.flit 1 1, F32.flit 2 1, F32.flit 3 1], F32.flit 4 1⟩)).v =
      [F32.pz, F32.pz, F32.pz] ∧
    F32.feq (lm.quat_mul ⟨[F32.flit 1 1, F32.flit 2 1, F32.flit 3 1], F32.flit 4 1⟩
        (lm.quat_conj ⟨[F32.flit 1 1, F32.flit 2 1, F32.flit 3 1], F32.flit 4 1⟩)).w
      (lm.quat_dot ⟨[F32.flit 1 1, F32.flit 2 1, F32.flit 3 1], F32.flit 4 1⟩
        ⟨[F32.flit 1 1, F32.flit 2 1, F32.flit 3 1], F32.flit 4 1⟩) = true :=
  quat_mul_conj_pure_scalar (F32.flit 1 1) (F32.flit 2 1) (F32.flit 3 1) (F32.flit 4 1)
    (by decide) (by decide) (by decide) (by decide) (by decide) (by decide) (by decide)
    (by decide) (by decide) (by decide)
